import Mathlib

/-!
Verification of the icelake `Table` module (`src/table.rs`).

The storage backend (opendal `Operator`) and the codec layer (`crate::types`
parsers) are external collaborators; they are modelled as records of pure
fallible functions, and every theorem quantifies over them.  Errors are
`anyhow` messages, modelled as plain strings; message text follows the
source where the source formats it, while text produced by external error
types (opendal errors, `ParseIntError`, `FromUtf8Error`) is represented by
the surrounding context string only.
-/

/-- Byte-wise lexicographic comparison on char lists (by code point).  For
UTF-8 strings, code-point order coincides with byte order, so this models
Rust `str` `Ord`. -/
def charListLeb : List Char → List Char → Bool
  | [], _ => true
  | _ :: _, [] => false
  | a :: as, b :: bs =>
    if a.toNat = b.toNat then charListLeb as bs
    else decide (a.toNat < b.toNat)

/-- Lexicographic `≤` on strings, modelling Rust `str` `Ord`. -/
def strLeb (s t : String) : Bool :=
  charListLeb s.data t.data

/-- Model of Rust `str::ends_with` for a string pattern. -/
def strEndsWith (s suffix : String) : Bool :=
  suffix.data.isSuffixOf s.data

/-- Helper for `stripPrefixStr`: remove `p` from the front of `s`,
character by character. -/
def stripPrefixList : List Char → List Char → Option (List Char)
  | s, [] => some s
  | [], _ :: _ => none
  | c :: s, p :: ps => if c = p then stripPrefixList s ps else none

/-- Model of Rust `str::strip_prefix`: `some` of the remainder when `pre`
is a prefix of `s`, `none` otherwise. -/
def stripPrefixStr (s pre : String) : Option String :=
  (stripPrefixList s.data pre.data).map (fun cs => String.mk cs)

/-- Insert a string into a sorted list, keeping it sorted (ascending). -/
def insertStr (x : String) : List String → List String
  | [] => [x]
  | y :: ys => if strLeb x y then x :: y :: ys else y :: insertStr x ys

/-- Sort a list of strings ascending by `strLeb`.  Models `Vec::sort` on
`String`s: since string equality is literal identity, every comparison
sort produces the same output, so insertion sort is observationally
identical to the stable mergesort Rust uses. -/
def sortStrings : List String → List String
  | [] => []
  | x :: xs => insertStr x (sortStrings xs)

/-- The value of an ASCII decimal digit, `none` on any other character. -/
def decDigit? (c : Char) : Option Nat :=
  if 48 ≤ c.toNat ∧ c.toNat ≤ 57 then some (c.toNat - 48) else none

/-- Value of a non-empty all-digit character list, `none` otherwise. -/
def digitsVal (cs : List Char) : Option Nat :=
  match cs with
  | [] => none
  | _ :: _ => List.foldlM (fun a c => (decDigit? c).map (fun d => a * 10 + d)) 0 cs

/-- The unbounded integer denoted by a string of the shape `sign? digit+`
(the grammar accepted by Rust `i32::from_str`), `none` when the string is
not of that shape. -/
def decimalValue? (s : String) : Option Int :=
  match s.data with
  | '+' :: rest => (digitsVal rest).map (fun n => (n : Int))
  | '-' :: rest => (digitsVal rest).map (fun n => -(n : Int))
  | cs => (digitsVal cs).map (fun n => (n : Int))

/-- Model of Rust `str::parse::<i32>`: the grammar `sign? digit+` with the
result required to fit in a signed 32-bit integer.  Rust checks overflow
digit by digit with checked arithmetic; since the accumulated magnitude is
monotone in the digits consumed, a step fails if and only if the final
value lies outside the `i32` range, so a whole-value range check is
equivalent. -/
def parseI32 (s : String) : Option Int :=
  match decimalValue? s with
  | some v => if -2147483648 ≤ v ∧ v ≤ 2147483647 then some v else none
  | none => none

/-- Snapshot record (`types::Snapshot`), the fields `table.rs` reads. -/
structure Snapshot where
  snapshot_id : Int
  manifest_list : String
  deriving DecidableEq

/-- Data-file record (`types::DataFile`); only `file_path` is observed in
the verified scope, the remaining metadata fields are not modelled. -/
structure DataFile where
  file_path : String
  deriving DecidableEq

/-- Manifest-file entry (`types::ManifestFileEntry`), wrapping a data file. -/
structure ManifestFileEntry where
  data_file : DataFile
  deriving DecidableEq

/-- Manifest-list record (`types::ManifestList`), the field `table.rs` reads. -/
structure ManifestList where
  manifest_path : String
  deriving DecidableEq

/-- Header part of a parsed manifest file.  `table.rs` binds it as `_` and
never inspects it, so no fields are modelled. -/
structure ManifestFileHeader where
  deriving DecidableEq

/-- Table metadata (`types::TableMetadata`), restricted to the fields
`table.rs` reads: `last_updated_ms`, `location`, `current_snapshot_id`,
`snapshots`. -/
structure TableMetadata where
  last_updated_ms : Int
  location : String
  current_snapshot_id : Option Int
  snapshots : Option (List Snapshot)
  deriving DecidableEq

/-- The storage backend capability (opendal `Operator`), external.  `list`
yields each entry as a possibly-failing result, as the opendal lister does;
an entry is its path string. -/
structure StorageBackend where
  is_exist : String → Except String Bool
  read : String → Except String (List Nat)
  list : String → Except String (List (Except String String))

/-- The codec layer (`crate::types` parsers and `String::from_utf8`),
external. -/
structure Codec where
  from_utf8 : List Nat → Except String String
  parse_table_metadata : List Nat → Except String TableMetadata
  parse_manifest_list : List Nat → Except String ManifestList
  parse_manifest_file : List Nat → Except String (ManifestFileHeader × List ManifestFileEntry)

/-- First-match lookup in the metadata cache (`HashMap::get`). -/
def mapGet (m : List (Int × TableMetadata)) (k : Int) : Option TableMetadata :=
  match m with
  | [] => none
  | (k2, v) :: rest => if k2 = k then some v else mapGet rest k

/-- `HashMap::insert`: bind `k` to `v`, replacing any previous binding. -/
def mapInsert (k : Int) (v : TableMetadata) (m : List (Int × TableMetadata)) :
    List (Int × TableMetadata) :=
  (k, v) :: m.filter (fun p => !(decide (p.1 = k)))

/-- The `Table` struct.  `op` is the storage backend handle; `codec` stands
for the statically-linked `crate::types` parsing functions, carried here so
that every theorem quantifies over the external codec. -/
structure Table where
  op : StorageBackend
  codec : Codec
  table_metadata : List (Int × TableMetadata)
  current_version : Int
  current_location : Option String

/-- `Table::new`: empty cache, sentinel version `0`, no location. -/
def Table.new (op : StorageBackend) (codec : Codec) : Table :=
  { op := op
    codec := codec
    table_metadata := []
    current_version := 0
    current_location := none }

/-- `Table::is_version_hint_exist`. -/
def Table.is_version_hint_exist (t : Table) : Except String Bool :=
  match t.op.is_exist "metadata/version-hint.text" with
  | .ok b => .ok b
  | .error e => .error ("check if version hint exist failed: " ++ e)

/-- `Table::read_version_hint`.  The `FromUtf8Error` and `ParseIntError`
texts embedded by the source are external; the parse-failure message keeps
the source prefix and carries the offending text. -/
def Table.read_version_hint (t : Table) : Except String Int :=
  match t.op.read "metadata/version-hint.text" with
  | .error e => .error e
  | .ok content =>
    match t.codec.from_utf8 content with
    | .error e => .error e
    | .ok version_hint =>
      match parseI32 version_hint with
      | some v => .ok v
      | none => .error ("parse version hint failed: " ++ version_hint)

/-- `Table::read_table_metadata`. -/
def Table.read_table_metadata (t : Table) (path : String) : Except String TableMetadata :=
  match t.op.read path with
  | .error e => .error e
  | .ok content => t.codec.parse_table_metadata content

/-- The lister loop of `Table::list_table_metadata_paths`: fail on the
first failing entry, keep entries ending in `.metadata.json`. -/
def collectMetadataPaths : List (Except String String) → Except String (List String)
  | [] => .ok []
  | .error err :: _ => .error ("list metadata entry failed: " ++ err)
  | .ok p :: rest =>
    if strEndsWith p ".metadata.json" then
      match collectMetadataPaths rest with
      | .ok ps => .ok (p :: ps)
      | .error e => .error e
    else collectMetadataPaths rest

/-- `Table::list_table_metadata_paths`: list `metadata/`, keep metadata
files, sort ascending by name. -/
def Table.list_table_metadata_paths (t : Table) : Except String (List String) :=
  match t.op.list "metadata/" with
  | .error err => .error ("list metadata failed: " ++ err)
  | .ok entries =>
    match collectMetadataPaths entries with
    | .error e => .error e
    | .ok paths => .ok (sortStrings paths)

/-- The `let path = ...` block of `Table::load`: the hint fast path when the
hint object exists, otherwise the last (lexically greatest) listed metadata
file, failing with `no table metadata found` on an empty listing. -/
def Table.resolve_path (t : Table) : Except String String :=
  match t.is_version_hint_exist with
  | .error e => .error e
  | .ok true =>
    match t.read_version_hint with
    | .error e => .error e
    | .ok version_hint => .ok ("metadata/v" ++ toString version_hint ++ ".metadata.json")
  | .ok false =>
    match t.list_table_metadata_paths with
    | .error e => .error e
    | .ok files =>
      match files.getLast? with
      | some p => .ok p
      | none => .error "no table metadata found"

/-- The tail of `Table::load` after the path is resolved: read and decode
the metadata, then perform the three field updates.  An early `?` return
leaves `self` untouched, modelled by returning the input table. -/
def Table.load_metadata_at (t : Table) (path : String) : Table × Except String Unit :=
  match t.read_table_metadata path with
  | .error e => (t, .error e)
  | .ok metadata =>
    ({ t with
        current_version := metadata.last_updated_ms
        current_location := some metadata.location
        table_metadata := mapInsert metadata.last_updated_ms metadata t.table_metadata },
     .ok ())

/-- `Table::load` on a `&mut self` receiver: the pair is (table after the
call, returned result). -/
def Table.load (t : Table) : Table × Except String Unit :=
  match t.resolve_path with
  | .error e => (t, .error e)
  | .ok path => t.load_metadata_at path

/-- `Table::current_table_metadata`. -/
def Table.current_table_metadata (t : Table) : Except String TableMetadata :=
  if t.current_version = 0 then .error "table metadata not loaded yet"
  else
    match mapGet t.table_metadata t.current_version with
    | some m => .ok m
    | none => .error "table metadata not found"

/-- `Table::rel_path`. -/
def Table.rel_path (t : Table) (path : String) : Except String String :=
  match t.current_location with
  | none => .error "table location is empty, maybe it\x27s not loaded?"
  | some location =>
    match stripPrefixStr path location with
    | some v => .ok v
    | none => .error ("path " ++ path ++ " is not starts with table location " ++ location)

/-- The manifest chain walk of `Table::current_data_files`, from the
selected snapshot on: relativize and read the manifest list, then the
manifest file, and project each entry to its data file. -/
def Table.data_files_from_snapshot (t : Table) (current_snapshot : Snapshot) :
    Except String (List DataFile) :=
  match t.rel_path current_snapshot.manifest_list with
  | .error e => .error e
  | .ok manifest_list_path =>
    match t.op.read manifest_list_path with
    | .error e => .error e
    | .ok manifest_list_content =>
      match t.codec.parse_manifest_list manifest_list_content with
      | .error e => .error e
      | .ok manifest_list =>
        match t.rel_path manifest_list.manifest_path with
        | .error e => .error e
        | .ok manifest_path =>
          match t.op.read manifest_path with
          | .error e => .error e
          | .ok manifest_content =>
            match t.codec.parse_manifest_file manifest_content with
            | .error e => .error e
            | .ok pr => .ok (pr.2.map (fun v => v.data_file))

/-- `Table::current_data_files`. -/
def Table.current_data_files (t : Table) : Except String (List DataFile) :=
  if t.current_version = 0 then .error "table metadata not loaded yet"
  else
    match mapGet t.table_metadata t.current_version with
    | none => .error "table metadata not found"
    | some meta =>
      match meta.current_snapshot_id with
      | none => .error "current snapshot id is empty"
      | some current_snapshot_id =>
        match meta.snapshots with
        | none => .error "snapshots is emppty"
        | some snapshots =>
          match snapshots.find? (fun v => decide (v.snapshot_id = current_snapshot_id)) with
          | none =>
            .error ("snapshot with id " ++ toString current_snapshot_id ++ " is not found")
          | some current_snapshot => t.data_files_from_snapshot current_snapshot

/-! ### Properties of the string order and the sort -/

theorem charListLeb_refl (l : List Char) : charListLeb l l = true := by
  induction l with
  | nil => rfl
  | cons a as ih => simp [charListLeb, ih]

theorem charListLeb_total (a b : List Char) :
    charListLeb a b = true ∨ charListLeb b a = true := by
  induction a generalizing b with
  | nil => left; rfl
  | cons x xs ih =>
    cases b with
    | nil => right; rfl
    | cons y ys =>
      simp only [charListLeb]
      by_cases h : x.toNat = y.toNat
      · rw [if_pos h, if_pos h.symm]
        exact ih ys
      · rw [if_neg h, if_neg (fun hh => h hh.symm)]
        rcases Nat.lt_or_ge x.toNat y.toNat with hlt | hge
        · left; exact decide_eq_true hlt
        · right; exact decide_eq_true (by omega)

theorem charListLeb_trans (a b c : List Char) (hab : charListLeb a b = true)
    (hbc : charListLeb b c = true) : charListLeb a c = true := by
  induction a generalizing b c with
  | nil => rfl
  | cons x xs ih =>
    cases b with
    | nil => simp [charListLeb] at hab
    | cons y ys =>
      cases c with
      | nil => simp [charListLeb] at hbc
      | cons z zs =>
        simp only [charListLeb] at hab hbc ⊢
        by_cases h1 : x.toNat = y.toNat <;> by_cases h2 : y.toNat = z.toNat
        · rw [if_pos h1] at hab
          rw [if_pos h2] at hbc
          rw [if_pos (h1.trans h2)]
          exact ih ys zs hab hbc
        · rw [if_pos h1] at hab
          rw [if_neg h2] at hbc
          have hlt : y.toNat < z.toNat := of_decide_eq_true hbc
          rw [if_neg (by omega)]
          exact decide_eq_true (by omega)
        · rw [if_neg h1] at hab
          have hlt : x.toNat < y.toNat := of_decide_eq_true hab
          rw [if_pos h2] at hbc
          rw [if_neg (by omega)]
          exact decide_eq_true (by omega)
        · rw [if_neg h1] at hab
          rw [if_neg h2] at hbc
          have l1 : x.toNat < y.toNat := of_decide_eq_true hab
          have l2 : y.toNat < z.toNat := of_decide_eq_true hbc
          rw [if_neg (by omega)]
          exact decide_eq_true (by omega)

theorem strLeb_refl (s : String) : strLeb s s = true :=
  charListLeb_refl s.data

theorem strLeb_total (s t : String) : strLeb s t = true ∨ strLeb t s = true :=
  charListLeb_total s.data t.data

theorem strLeb_trans (s t u : String) (h1 : strLeb s t = true) (h2 : strLeb t u = true) :
    strLeb s u = true :=
  charListLeb_trans s.data t.data u.data h1 h2

theorem insertStr_mem (a x : String) (l : List String) :
    a ∈ insertStr x l ↔ a = x ∨ a ∈ l := by
  induction l with
  | nil => simp [insertStr]
  | cons y ys ih =>
    simp only [insertStr]
    split
    · simp [List.mem_cons]
    · simp only [List.mem_cons, ih]
      tauto

theorem insertStr_pairwise (x : String) (l : List String)
    (h : List.Pairwise (fun a b => strLeb a b = true) l) :
    List.Pairwise (fun a b => strLeb a b = true) (insertStr x l) := by
  induction l with
  | nil => simp [insertStr]
  | cons y ys ih =>
    rcases List.pairwise_cons.mp h with ⟨hy, hys⟩
    simp only [insertStr]
    split
    case isTrue hxy =>
      refine List.pairwise_cons.mpr ⟨?_, h⟩
      intro b hb
      rcases List.mem_cons.mp hb with rfl | hb
      · exact hxy
      · exact strLeb_trans x y b hxy (hy b hb)
    case isFalse hxy =>
      refine List.pairwise_cons.mpr ⟨?_, ih hys⟩
      intro b hb
      rcases (insertStr_mem b x ys).mp hb with rfl | hb
      · rcases strLeb_total b y with h1 | h1
        · exact absurd h1 (by simpa using hxy)
        · exact h1
      · exact hy b hb

theorem sortStrings_mem (a : String) (l : List String) : a ∈ sortStrings l ↔ a ∈ l := by
  induction l with
  | nil => simp [sortStrings]
  | cons x xs ih =>
    simp only [sortStrings, insertStr_mem, ih, List.mem_cons]

theorem sortStrings_pairwise (l : List String) :
    List.Pairwise (fun a b => strLeb a b = true) (sortStrings l) := by
  induction l with
  | nil => simp [sortStrings]
  | cons x xs ih => exact insertStr_pairwise x (sortStrings xs) ih

theorem insertStr_ne_nil (x : String) (l : List String) : insertStr x l ≠ [] := by
  cases l with
  | nil => simp [insertStr]
  | cons y ys =>
    simp only [insertStr]
    split <;> simp

theorem sortStrings_ne_nil (l : List String) (h : l ≠ []) : sortStrings l ≠ [] := by
  cases l with
  | nil => exact absurd rfl h
  | cons x xs => exact insertStr_ne_nil x (sortStrings xs)

theorem pairwise_getLast_max (l : List String) (p : String)
    (hs : List.Pairwise (fun a b => strLeb a b = true) l) (hl : l.getLast? = some p) :
    ∀ q ∈ l, strLeb q p = true := by
  rcases List.getLast?_eq_some_iff.mp hl with ⟨ys, rfl⟩
  intro q hq
  rcases List.mem_append.mp hq with hq | hq
  · exact (List.pairwise_append.mp hs).2.2 q hq p (by simp)
  · rcases List.mem_singleton.mp hq with rfl
    exact strLeb_refl q

theorem getLast?_mem (l : List String) (p : String) (hl : l.getLast? = some p) : p ∈ l := by
  rcases List.getLast?_eq_some_iff.mp hl with ⟨ys, rfl⟩
  exact List.mem_append_right ys (by simp)

/-! ### Properties of the prefix stripper -/

theorem stripPrefixList_eq_some (s p r : List Char) :
    stripPrefixList s p = some r ↔ s = p ++ r := by
  induction p generalizing s with
  | nil =>
    simp [stripPrefixList]
  | cons x xs ih =>
    cases s with
    | nil => simp [stripPrefixList]
    | cons c cs =>
      simp only [stripPrefixList]
      by_cases h : c = x
      · subst h
        rw [if_pos rfl, ih]
        simp
      · rw [if_neg h]
        simp [h]

theorem stripPrefixList_eq_none (s p : List Char) :
    stripPrefixList s p = none ↔ ¬ p <+: s := by
  constructor
  · intro h hpre
    rcases hpre with ⟨r, hr⟩
    have h2 := (stripPrefixList_eq_some s p r).mpr hr.symm
    rw [h] at h2
    exact Option.noConfusion h2
  · intro h
    cases hsp : stripPrefixList s p with
    | none => rfl
    | some r => exact absurd ⟨r, ((stripPrefixList_eq_some s p r).mp hsp).symm⟩ h

theorem stripPrefixStr_append (pre s : String) : stripPrefixStr (pre ++ s) pre = some s := by
  have hd : (pre ++ s).data = pre.data ++ s.data := String.data_append pre s
  simp only [stripPrefixStr, hd,
    (stripPrefixList_eq_some (pre.data ++ s.data) pre.data s.data).mpr rfl, Option.map_some]
  rfl

theorem stripPrefixStr_not_prefix (s pre : String) (h : ¬ pre.data <+: s.data) :
    stripPrefixStr s pre = none := by
  simp only [stripPrefixStr, (stripPrefixList_eq_none s.data pre.data).mpr h]
  rfl

/-! ### Properties of the lister loop, the cache and `load` -/

theorem collectMetadataPaths_ok (es : List String) :
    collectMetadataPaths (es.map Except.ok) =
      .ok (es.filter (fun s => strEndsWith s ".metadata.json")) := by
  induction es with
  | nil => rfl
  | cons p rest ih =>
    simp only [List.map_cons, collectMetadataPaths, List.filter_cons]
    by_cases h : strEndsWith p ".metadata.json" = true
    · simp [h, ih]
    · simp [h, ih]

theorem mapGet_mapInsert_self (k : Int) (v : TableMetadata) (m : List (Int × TableMetadata)) :
    mapGet (mapInsert k v m) k = some v := by
  simp [mapGet, mapInsert]

theorem countP_mapInsert (k : Int) (v : TableMetadata) (m : List (Int × TableMetadata)) :
    List.countP (fun p => decide (p.1 = k)) (mapInsert k v m) = 1 := by
  simp only [mapInsert, List.countP_cons, List.countP_filter]
  have h0 : List.countP (fun p => decide (p.1 = k) && !(decide (p.1 = k))) m = 0 := by
    refine List.countP_eq_zero.mpr ?_
    intro p hp
    simp
  simp [h0]

theorem Table.load_ok_inv (t : Table) (h : (Table.load t).2 = .ok ()) :
    ∃ path metadata, t.resolve_path = .ok path ∧
      t.read_table_metadata path = .ok metadata ∧
      (Table.load t).1 = { t with
        current_version := metadata.last_updated_ms
        current_location := some metadata.location
        table_metadata := mapInsert metadata.last_updated_ms metadata t.table_metadata } := by
  cases hr : t.resolve_path with
  | error e =>
    unfold Table.load at h
    rw [hr] at h
    simp at h
  | ok path =>
    unfold Table.load at h
    rw [hr] at h
    cases hm : t.read_table_metadata path with
    | error e2 =>
      simp [Table.load_metadata_at, hm] at h
    | ok m =>
      refine ⟨path, m, rfl, hm, ?_⟩
      simp [Table.load, Table.load_metadata_at, hr, hm]

theorem resolve_path_update (t : Table) (md : List (Int × TableMetadata)) (cv : Int)
    (cl : Option String) :
    Table.resolve_path { t with
      table_metadata := md
      current_version := cv
      current_location := cl } = Table.resolve_path t := rfl

theorem read_table_metadata_update (t : Table) (md : List (Int × TableMetadata)) (cv : Int)
    (cl : Option String) (path : String) :
    Table.read_table_metadata { t with
      table_metadata := md
      current_version := cv
      current_location := cl } path = Table.read_table_metadata t path := rfl

/-! ### Concrete backends and codecs used to witness the theorems -/

deriving instance DecidableEq for Except

/-- A backend on which every operation reports an I/O error. -/
def emptyOp : StorageBackend :=
  { is_exist := fun _ => .error "io error"
    read := fun _ => .error "io error"
    list := fun _ => .error "io error" }

/-- A codec on which every decode fails. -/
def emptyCodec : Codec :=
  { from_utf8 := fun _ => .error "decode error"
    parse_table_metadata := fun _ => .error "bad metadata"
    parse_manifest_list := fun _ => .error "bad manifest list"
    parse_manifest_file := fun _ => .error "bad manifest file" }

/-- UTF-8 decoding restricted to the ASCII range, used by the concrete test
codecs; every fixture content is ASCII. -/
def asciiDecode (bs : List Nat) : Except String String :=
  if bs.all (fun b => decide (b < 128)) then .ok (String.mk (bs.map Char.ofNat))
  else .error "invalid utf-8"

/-- Fixture snapshot: id `2`, manifest list under the table location. -/
def simpleSnapshot : Snapshot :=
  { snapshot_id := 2
    manifest_list := "s3://testbucket/tbl/metadata/snap-2.avro" }

/-- Fixture metadata for version-hint `2`. -/
def simpleMetadata : TableMetadata :=
  { last_updated_ms := 1686911671713
    location := "s3://testbucket/tbl"
    current_snapshot_id := some 2
    snapshots := some [simpleSnapshot] }

/-- The three data files of the fixture manifest, in manifest order. -/
def simpleDataFiles : List DataFile :=
  [{ file_path := "data/00000-0.parquet" },
   { file_path := "data/00001-1.parquet" },
   { file_path := "data/00002-2.parquet" }]

/-- Fixture backend: hint file containing `2` (byte 50), a `v2` metadata
object, and the snapshot-2 manifest chain.  Contents are tag bytes decoded
by `simpleCodec`. -/
def simpleOp : StorageBackend :=
  { is_exist := fun p => .ok (decide (p = "metadata/version-hint.text"))
    read := fun p =>
      if p = "metadata/version-hint.text" then .ok [50]
      else if p = "metadata/v2.metadata.json" then .ok [2]
      else if p = "/metadata/snap-2.avro" then .ok [3]
      else if p = "/metadata/manifest-1.avro" then .ok [4]
      else .error "not found"
    list := fun _ => .ok [.ok "metadata/v1.metadata.json", .ok "metadata/v2.metadata.json"] }

/-- Fixture codec decoding the tag bytes written by `simpleOp`. -/
def simpleCodec : Codec :=
  { from_utf8 := asciiDecode
    parse_table_metadata := fun bs =>
      if bs = [2] then .ok simpleMetadata else .error "bad metadata"
    parse_manifest_list := fun bs =>
      if bs = [3] then .ok { manifest_path := "s3://testbucket/tbl/metadata/manifest-1.avro" }
      else .error "bad manifest list"
    parse_manifest_file := fun bs =>
      if bs = [4] then .ok ({}, simpleDataFiles.map (fun d => { data_file := d }))
      else .error "bad manifest file" }

/-- Fresh fixture table. -/
def simpleTable : Table := Table.new simpleOp simpleCodec

/-- The fixture table after one successful `load`. -/
def loadedSimpleTable : Table := (Table.load simpleTable).1

/-- Backend with no hint file and metadata files `v10` and `v2` only. -/
def noHintOp : StorageBackend :=
  { is_exist := fun _ => .ok false
    read := fun p => if p = "metadata/v2.metadata.json" then .ok [2] else .error "not found"
    list := fun p =>
      if p = "metadata/" then
        .ok [.ok "metadata/v10.metadata.json", .ok "metadata/v2.metadata.json"]
      else .error "not found" }

/-- Fresh table over the hint-less backend. -/
def noHintTable : Table := Table.new noHintOp simpleCodec

/-- Metadata whose snapshots list is present but empty. -/
def emptySnapshotsMetadata : TableMetadata :=
  { last_updated_ms := 42
    location := "s3://bkt/tbl"
    current_snapshot_id := some 1
    snapshots := some [] }

/-- Backend for the empty-snapshots metadata, reached through the hint path. -/
def emptySnapshotsOp : StorageBackend :=
  { is_exist := fun p => .ok (decide (p = "metadata/version-hint.text"))
    read := fun p =>
      if p = "metadata/version-hint.text" then .ok [50]
      else if p = "metadata/v2.metadata.json" then .ok [7]
      else .error "not found"
    list := fun _ => .error "not found" }

/-- Codec decoding tag byte 7 to the empty-snapshots metadata. -/
def emptySnapshotsCodec : Codec :=
  { from_utf8 := asciiDecode
    parse_table_metadata := fun bs =>
      if bs = [7] then .ok emptySnapshotsMetadata else .error "bad metadata"
    parse_manifest_list := fun _ => .error "bad manifest list"
    parse_manifest_file := fun _ => .error "bad manifest file" }

/-- Table loaded with the empty-snapshots metadata. -/
def emptySnapshotsTable : Table := (Table.load (Table.new emptySnapshotsOp emptySnapshotsCodec)).1

/-- Metadata whose `last_updated_ms` is the unloaded sentinel `0`. -/
def zeroMsMetadata : TableMetadata :=
  { last_updated_ms := 0
    location := "s3://bkt/tbl"
    current_snapshot_id := some 1
    snapshots := some [] }

/-- Backend for the sentinel-colliding metadata, reached through the hint path. -/
def zeroMsOp : StorageBackend :=
  { is_exist := fun p => .ok (decide (p = "metadata/version-hint.text"))
    read := fun p =>
      if p = "metadata/version-hint.text" then .ok [50]
      else if p = "metadata/v2.metadata.json" then .ok [8]
      else .error "not found"
    list := fun _ => .error "not found" }

/-- Codec decoding tag byte 8 to the sentinel-colliding metadata. -/
def zeroMsCodec : Codec :=
  { from_utf8 := asciiDecode
    parse_table_metadata := fun bs =>
      if bs = [8] then .ok zeroMsMetadata else .error "bad metadata"
    parse_manifest_list := fun _ => .error "bad manifest list"
    parse_manifest_file := fun _ => .error "bad manifest file" }

/-- Fresh table over the sentinel-colliding backend. -/
def zeroMsTable : Table := Table.new zeroMsOp zeroMsCodec

/-- Backend whose hint file reads `2147483648`, one past the `i32` maximum
(bytes of the ASCII digits). -/
def overflowHintOp : StorageBackend :=
  { is_exist := fun p => .ok (decide (p = "metadata/version-hint.text"))
    read := fun p =>
      if p = "metadata/version-hint.text" then .ok [50, 49, 52, 55, 52, 56, 51, 54, 52, 56]
      else .error "not found"
    list := fun _ => .error "not found" }

/-- Fresh table over the overflowing-hint backend. -/
def overflowHintTable : Table := Table.new overflowHintOp simpleCodec

/-! ### The claims -/

/-- C1: Version-hint precedence.  When the hint object exists and its
content decodes to text parsed by the code (as `i32`, see C10) to `v`,
`load` resolves the metadata path to `metadata/v{v}.metadata.json` and
proceeds from it.  `t.op.list` is unconstrained, so the theorem holds for
every directory listing — the listing is never consulted, even when
metadata files of higher versions exist. -/
theorem C1_version_hint_precedence (t : Table) (content : List Nat) (text : String) (v : Int)
    (hE : t.op.is_exist "metadata/version-hint.text" = .ok true)
    (hR : t.op.read "metadata/version-hint.text" = .ok content)
    (hU : t.codec.from_utf8 content = .ok text)
    (hP : parseI32 text = some v) :
    t.resolve_path = .ok ("metadata/v" ++ toString v ++ ".metadata.json") ∧
    Table.load t = t.load_metadata_at ("metadata/v" ++ toString v ++ ".metadata.json") := by
  have h1 : t.is_version_hint_exist = .ok true := by
    simp [Table.is_version_hint_exist, hE]
  have h2 : t.read_version_hint = .ok v := by
    simp [Table.read_version_hint, hR, hU, hP]
  have h3 : t.resolve_path = .ok ("metadata/v" ++ toString v ++ ".metadata.json") := by
    simp [Table.resolve_path, h1, h2]
  exact ⟨h3, by simp [Table.load, h3]⟩

/-- Witness for C1: the fixture hint contains `2` and the resolved path is
`metadata/v2.metadata.json`, although the listing also shows `v1`. -/
theorem C1_version_hint_precedence_witness :
    Table.resolve_path simpleTable = .ok ("metadata/v" ++ toString (2 : Int) ++ ".metadata.json") ∧
    Table.load simpleTable =
      Table.load_metadata_at simpleTable ("metadata/v" ++ toString (2 : Int) ++ ".metadata.json") :=
  C1_version_hint_precedence simpleTable [50] "2" 2 rfl rfl rfl rfl

/-- C4: Pre-load guard.  On a table on which no load has succeeded — its
state is still the initial one: sentinel version `0` and no location —
`current_table_metadata` and `current_data_files` fail with the not-loaded
error, and `rel_path` fails with the location-not-loaded error. -/
theorem C4_preload_guard (t : Table) (h0 : t.current_version = 0)
    (hl : t.current_location = none) :
    t.current_table_metadata = .error "table metadata not loaded yet" ∧
    t.current_data_files = .error "table metadata not loaded yet" ∧
    ∀ p, t.rel_path p = .error "table location is empty, maybe it\x27s not loaded?" := by
  refine ⟨?_, ?_, fun p => ?_⟩ <;>
    simp [Table.current_table_metadata, Table.current_data_files, Table.rel_path, h0, hl]

/-- Witness for C4 at a freshly constructed table. -/
theorem C4_preload_guard_witness :
    (Table.new emptyOp emptyCodec).current_table_metadata =
      .error "table metadata not loaded yet" ∧
    (Table.new emptyOp emptyCodec).current_data_files =
      .error "table metadata not loaded yet" ∧
    ∀ p, (Table.new emptyOp emptyCodec).rel_path p =
      .error "table location is empty, maybe it\x27s not loaded?" :=
  C4_preload_guard (Table.new emptyOp emptyCodec) rfl rfl

/-- C6: Load atomicity.  Whenever `load` returns an error — at the hint
check, hint read or parse, listing, byte read, or metadata decode — the
table is exactly the one before the call: `current_version`,
`current_location` and the metadata cache are untouched.  Mutation happens
only in the branch where the decode succeeded. -/
theorem C6_load_atomicity (t : Table) (e : String) (h : (Table.load t).2 = .error e) :
    (Table.load t).1 = t := by
  cases hr : t.resolve_path with
  | error e2 => simp [Table.load, hr]
  | ok path =>
    cases hm : t.read_table_metadata path with
    | error e2 => simp [Table.load, Table.load_metadata_at, hr, hm]
    | ok m =>
      unfold Table.load at h
      rw [hr] at h
      simp [Table.load_metadata_at, hm] at h

/-- Witness for C6 at a backend whose hint check fails. -/
theorem C6_load_atomicity_witness :
    (Table.load (Table.new emptyOp emptyCodec)).1 = Table.new emptyOp emptyCodec :=
  C6_load_atomicity (Table.new emptyOp emptyCodec)
    "check if version hint exist failed: io error" rfl

/-- C3 (amended): relativization keeps the remainder verbatim.  For a
loaded table whose stored location is `L`, `rel_path` maps `L ++ s` to `s`
— so `L ++ "/metadata/x"` yields `"/metadata/x"` with its leading slash,
not `"metadata/x"` — and every path of which `L` is not a prefix (char
lists model byte-for-byte comparison; UTF-8 byte prefixes coincide with
code-point prefixes) fails with the path-not-under-root error. -/
theorem C3_rel_path_roundtrip_amended (t : Table) (L s p : String)
    (hloc : t.current_location = some L) :
    t.rel_path (L ++ s) = .ok s ∧
    (¬ L.data <+: p.data →
      t.rel_path p = .error ("path " ++ p ++ " is not starts with table location " ++ L)) := by
  constructor
  · simp [Table.rel_path, hloc, stripPrefixStr_append]
  · intro hnp
    simp [Table.rel_path, hloc, stripPrefixStr_not_prefix p L hnp]

/-- Witness for the amended C3 on the loaded fixture table (location
`s3://testbucket/tbl`). -/
theorem C3_rel_path_roundtrip_witness :
    Table.rel_path loadedSimpleTable ("s3://testbucket/tbl" ++ "/metadata/x") =
      .ok "/metadata/x" ∧
    Table.rel_path loadedSimpleTable "other://y" =
      .error ("path " ++ "other://y" ++ " is not starts with table location " ++
        "s3://testbucket/tbl") :=
  ⟨(C3_rel_path_roundtrip_amended loadedSimpleTable "s3://testbucket/tbl" "/metadata/x"
      "other://y" rfl).1,
   (C3_rel_path_roundtrip_amended loadedSimpleTable "s3://testbucket/tbl" "/metadata/x"
      "other://y" rfl).2
     (fun hpre => absurd ((stripPrefixList_eq_none
       ("other://y" : String).data ("s3://testbucket/tbl" : String).data).mp rfl) (fun hn => hn hpre))⟩

/-- Counterexample to C3 as stated: on the loaded fixture table, whose
location is `s3://testbucket/tbl`, `rel_path` applied to
`location ++ "/metadata/x"` returns `"/metadata/x"`, not the claimed
`"metadata/x"`. -/
theorem C3_rel_path_counterexample :
    Table.rel_path loadedSimpleTable ("s3://testbucket/tbl" ++ "/metadata/x") =
      .ok "/metadata/x" ∧
    Table.rel_path loadedSimpleTable ("s3://testbucket/tbl" ++ "/metadata/x") ≠
      .ok "metadata/x" := by
  constructor
  · rfl
  · decide

/-- C5 (amended): snapshot selection errors.  On a loaded metadata,
`current_data_files` fails with `current snapshot id is empty` when the
current snapshot id is absent; with `snapshots is emppty` (sic) only when
the snapshots field itself is absent — a present-but-empty list falls
through; with the snapshot-not-found error carrying the id when no entry
matches (in particular when the list is empty); and otherwise continues
with the first matching entry of the list. -/
theorem C5_snapshot_selection_amended (t : Table) (meta : TableMetadata)
    (hv : ¬ t.current_version = 0)
    (hm : mapGet t.table_metadata t.current_version = some meta) :
    (meta.current_snapshot_id = none →
      t.current_data_files = .error "current snapshot id is empty") ∧
    (∀ sid, meta.current_snapshot_id = some sid → meta.snapshots = none →
      t.current_data_files = .error "snapshots is emppty") ∧
    (∀ sid snaps, meta.current_snapshot_id = some sid → meta.snapshots = some snaps →
      snaps.find? (fun v => decide (v.snapshot_id = sid)) = none →
      t.current_data_files =
        .error ("snapshot with id " ++ toString sid ++ " is not found")) ∧
    (∀ sid snaps snap, meta.current_snapshot_id = some sid → meta.snapshots = some snaps →
      snaps.find? (fun v => decide (v.snapshot_id = sid)) = some snap →
      snap.snapshot_id = sid ∧
      (∃ pre post, snaps = pre ++ snap :: post ∧ ∀ x ∈ pre, x.snapshot_id ≠ sid) ∧
      t.current_data_files = t.data_files_from_snapshot snap) := by
  refine ⟨?_, ?_, ?_, ?_⟩
  · intro h1
    simp [Table.current_data_files, hv, hm, h1]
  · intro sid h1 h2
    simp [Table.current_data_files, hv, hm, h1, h2]
  · intro sid snaps h1 h2 h3
    simp [Table.current_data_files, hv, hm, h1, h2, h3]
  · intro sid snaps snap h1 h2 h3
    have hfind := List.find?_eq_some.mp h3
    refine ⟨of_decide_eq_true hfind.1, ?_, ?_⟩
    · rcases hfind.2 with ⟨pre, post, heq, hall⟩
      exact ⟨pre, post, heq, fun x hx => by simpa using hall x hx⟩
    · simp [Table.current_data_files, hv, hm, h1, h2, h3]

/-- Witness for the amended C5 at the loaded empty-snapshots fixture. -/
theorem C5_snapshot_selection_witness :
    (emptySnapshotsMetadata.current_snapshot_id = none →
      emptySnapshotsTable.current_data_files = .error "current snapshot id is empty") ∧
    (∀ sid, emptySnapshotsMetadata.current_snapshot_id = some sid →
      emptySnapshotsMetadata.snapshots = none →
      emptySnapshotsTable.current_data_files = .error "snapshots is emppty") ∧
    (∀ sid snaps, emptySnapshotsMetadata.current_snapshot_id = some sid →
      emptySnapshotsMetadata.snapshots = some snaps →
      snaps.find? (fun v => decide (v.snapshot_id = sid)) = none →
      emptySnapshotsTable.current_data_files =
        .error ("snapshot with id " ++ toString sid ++ " is not found")) ∧
    (∀ sid snaps snap, emptySnapshotsMetadata.current_snapshot_id = some sid →
      emptySnapshotsMetadata.snapshots = some snaps →
      snaps.find? (fun v => decide (v.snapshot_id = sid)) = some snap →
      snap.snapshot_id = sid ∧
      (∃ pre post, snaps = pre ++ snap :: post ∧ ∀ x ∈ pre, x.snapshot_id ≠ sid) ∧
      emptySnapshotsTable.current_data_files =
        emptySnapshotsTable.data_files_from_snapshot snap) :=
  C5_snapshot_selection_amended emptySnapshotsTable emptySnapshotsMetadata
    (by decide) rfl

/-- Counterexample to C5 as stated: `emptySnapshotsTable` holds loaded
metadata whose snapshots list is present but empty; `current_data_files`
fails with the snapshot-not-found error, not the `NoSnapshots` error
(`snapshots is emppty`) that the claim requires for an empty list. -/
theorem C5_snapshot_selection_counterexample :
    Table.current_data_files emptySnapshotsTable =
      .error ("snapshot with id " ++ toString (1 : Int) ++ " is not found") ∧
    Table.current_data_files emptySnapshotsTable ≠ .error "snapshots is emppty" := by
  constructor
  · rfl
  · decide

/-- C2: Fallback version discovery.  When the hint object is absent,
`load` lists `metadata/`, keeps exactly the entries whose name ends with
`.metadata.json` (the library sorts them ascending), fails with
`no table metadata found` when the filtered set is empty, and otherwise
resolves to the lexicographically greatest kept name — every kept name
compares `≤` to the selected one — and proceeds from it. -/
theorem C2_fallback_discovery (t : Table) (entries : List String)
    (hE : t.op.is_exist "metadata/version-hint.text" = .ok false)
    (hL : t.op.list "metadata/" = .ok (entries.map Except.ok)) :
    t.list_table_metadata_paths =
      .ok (sortStrings (entries.filter (fun s => strEndsWith s ".metadata.json"))) ∧
    (entries.filter (fun s => strEndsWith s ".metadata.json") = [] →
      Table.load t = (t, .error "no table metadata found")) ∧
    (∀ p, t.resolve_path = .ok p →
      p ∈ entries.filter (fun s => strEndsWith s ".metadata.json") ∧
      (∀ q ∈ entries.filter (fun s => strEndsWith s ".metadata.json"), strLeb q p = true) ∧
      Table.load t = t.load_metadata_at p) ∧
    (entries.filter (fun s => strEndsWith s ".metadata.json") ≠ [] →
      ∃ p, t.resolve_path = .ok p) := by
  have h1 : t.is_version_hint_exist = .ok false := by
    simp [Table.is_version_hint_exist, hE]
  have h2 : t.list_table_metadata_paths =
      .ok (sortStrings (entries.filter (fun s => strEndsWith s ".metadata.json"))) := by
    simp [Table.list_table_metadata_paths, hL, collectMetadataPaths_ok]
  set files := entries.filter (fun s => strEndsWith s ".metadata.json") with hfiles
  have hres : t.resolve_path =
      (match (sortStrings files).getLast? with
       | some p => Except.ok p
       | none => Except.error "no table metadata found") := by
    simp [Table.resolve_path, h1, h2]
  refine ⟨h2, ?_, ?_, ?_⟩
  · intro hnil
    rw [hnil] at hres
    simp only [sortStrings, List.getLast?] at hres
    simp [Table.load, hres]
  · intro p hp
    rw [hres] at hp
    cases hgl : (sortStrings files).getLast? with
    | none => rw [hgl] at hp; simp at hp
    | some q =>
      rw [hgl] at hp
      have hqp : q = p := by simpa using hp
      subst hqp
      refine ⟨?_, ?_, ?_⟩
      · exact (sortStrings_mem q files).mp (getLast?_mem (sortStrings files) q hgl)
      · intro r hr
        exact pairwise_getLast_max (sortStrings files) q (sortStrings_pairwise files) hgl r
          ((sortStrings_mem r files).mpr hr)
      · have hpq : t.resolve_path = .ok q := by rw [hres, hgl]
        simp [Table.load, hpq]
  · intro hne
    cases hgl : (sortStrings files).getLast? with
    | none =>
      have : sortStrings files = [] := by
        cases hsf : sortStrings files with
        | nil => rfl
        | cons a as => rw [hsf] at hgl; simp [List.getLast?_concat] at hgl
      exact absurd this (sortStrings_ne_nil files hne)
    | some q => exact ⟨q, by rw [hres, hgl]⟩

/-- Witness for C2 on the hint-less fixture whose only metadata files are
`v10` and `v2`: the selected path is `metadata/v2.metadata.json` — the
lexical, not numeric, maximum. -/
theorem C2_fallback_discovery_witness :
    Table.resolve_path noHintTable = .ok "metadata/v2.metadata.json" ∧
    (noHintTable.list_table_metadata_paths =
      .ok (sortStrings ((["metadata/v10.metadata.json",
        "metadata/v2.metadata.json"] : List String).filter
          (fun s => strEndsWith s ".metadata.json"))) ∧
    ((["metadata/v10.metadata.json", "metadata/v2.metadata.json"] : List String).filter
        (fun s => strEndsWith s ".metadata.json") = [] →
      Table.load noHintTable = (noHintTable, .error "no table metadata found")) ∧
    (∀ p, noHintTable.resolve_path = .ok p →
      p ∈ (["metadata/v10.metadata.json", "metadata/v2.metadata.json"] : List String).filter
        (fun s => strEndsWith s ".metadata.json") ∧
      (∀ q ∈ (["metadata/v10.metadata.json", "metadata/v2.metadata.json"] : List String).filter
        (fun s => strEndsWith s ".metadata.json"), strLeb q p = true) ∧
      Table.load noHintTable = noHintTable.load_metadata_at p) ∧
    ((["metadata/v10.metadata.json", "metadata/v2.metadata.json"] : List String).filter
        (fun s => strEndsWith s ".metadata.json") ≠ [] →
      ∃ p, noHintTable.resolve_path = .ok p)) :=
  ⟨rfl,
   C2_fallback_discovery noHintTable
     ["metadata/v10.metadata.json", "metadata/v2.metadata.json"] rfl rfl⟩

/-- C7: Idempotent re-load.  The backend and codec are pure values carried
by the table, so a second `load` runs against an unchanged backend: it
succeeds again, `current_table_metadata` is the same as after the first
load, and the cache holds exactly one entry for the current version — the
second insert at the same `last_updated_ms` key overwrites, never
duplicates. -/
theorem C7_idempotent_reload (t : Table) (h : (Table.load t).2 = .ok ()) :
    (Table.load (Table.load t).1).2 = .ok () ∧
    (Table.load (Table.load t).1).1.current_table_metadata =
      (Table.load t).1.current_table_metadata ∧
    List.countP (fun p => decide (p.1 = (Table.load t).1.current_version))
      (Table.load (Table.load t).1).1.table_metadata = 1 := by
  obtain ⟨path, m, hr, hm, ht1⟩ := Table.load_ok_inv t h
  rw [ht1]
  have hr2 : Table.resolve_path { t with
      current_version := m.last_updated_ms
      current_location := some m.location
      table_metadata := mapInsert m.last_updated_ms m t.table_metadata } = .ok path := by
    rw [resolve_path_update]
    exact hr
  have hm2 : Table.read_table_metadata { t with
      current_version := m.last_updated_ms
      current_location := some m.location
      table_metadata := mapInsert m.last_updated_ms m t.table_metadata } path = .ok m := by
    rw [read_table_metadata_update]
    exact hm
  have hload2 : Table.load { t with
      current_version := m.last_updated_ms
      current_location := some m.location
      table_metadata := mapInsert m.last_updated_ms m t.table_metadata } =
    ({ t with
        current_version := m.last_updated_ms
        current_location := some m.location
        table_metadata := mapInsert m.last_updated_ms m
          (mapInsert m.last_updated_ms m t.table_metadata) }, .ok ()) := by
    simp only [Table.load, Table.load_metadata_at, hr2, hm2]
  rw [hload2]
  refine ⟨rfl, ?_, ?_⟩
  · by_cases hk : m.last_updated_ms = 0
    · simp [Table.current_table_metadata, hk]
    · simp [Table.current_table_metadata, hk, mapGet_mapInsert_self]
  · simp [countP_mapInsert]

/-- Witness for C7 at the hint-file fixture. -/
theorem C7_idempotent_reload_witness :
    (Table.load (Table.load simpleTable).1).2 = .ok () ∧
    (Table.load (Table.load simpleTable).1).1.current_table_metadata =
      (Table.load simpleTable).1.current_table_metadata ∧
    List.countP (fun p => decide (p.1 = (Table.load simpleTable).1.current_version))
      (Table.load (Table.load simpleTable).1).1.table_metadata = 1 :=
  C7_idempotent_reload simpleTable rfl

/-- C9: Sentinel collision at the public interface.  After any successful
`load` of metadata `m`: the cache holds `m` at key `m.last_updated_ms` and
`current_location` is set; when `m.last_updated_ms = 0`, which is the
unloaded sentinel, `current_table_metadata` and `current_data_files`
nevertheless fail with the not-loaded error; when `m.last_updated_ms ≠ 0`,
`current_table_metadata` returns exactly the decoded metadata. -/
theorem C9_sentinel_collision (t : Table) (h : (Table.load t).2 = .ok ()) :
    ∃ path metadata, t.resolve_path = .ok path ∧
      t.read_table_metadata path = .ok metadata ∧
      (Table.load t).1.current_location = some metadata.location ∧
      mapGet (Table.load t).1.table_metadata metadata.last_updated_ms = some metadata ∧
      (metadata.last_updated_ms = 0 →
        (Table.load t).1.current_table_metadata = .error "table metadata not loaded yet" ∧
        (Table.load t).1.current_data_files = .error "table metadata not loaded yet") ∧
      (metadata.last_updated_ms ≠ 0 →
        (Table.load t).1.current_table_metadata = .ok metadata) := by
  obtain ⟨path, m, hr, hm, ht1⟩ := Table.load_ok_inv t h
  rw [ht1]
  refine ⟨path, m, hr, hm, rfl, mapGet_mapInsert_self _ _ _, ?_, ?_⟩
  · intro hz
    constructor
    · simp [Table.current_table_metadata, hz]
    · simp [Table.current_data_files, hz]
  · intro hnz
    simp [Table.current_table_metadata, hnz, mapGet_mapInsert_self]

/-- Witness for C9 at the fixture whose metadata carries
`last_updated_ms = 0`. -/
theorem C9_sentinel_collision_witness :
    ∃ path metadata, zeroMsTable.resolve_path = .ok path ∧
      zeroMsTable.read_table_metadata path = .ok metadata ∧
      (Table.load zeroMsTable).1.current_location = some metadata.location ∧
      mapGet (Table.load zeroMsTable).1.table_metadata metadata.last_updated_ms =
        some metadata ∧
      (metadata.last_updated_ms = 0 →
        (Table.load zeroMsTable).1.current_table_metadata =
          .error "table metadata not loaded yet" ∧
        (Table.load zeroMsTable).1.current_data_files =
          .error "table metadata not loaded yet") ∧
      (metadata.last_updated_ms ≠ 0 →
        (Table.load zeroMsTable).1.current_table_metadata = .ok metadata) :=
  C9_sentinel_collision zeroMsTable rfl

/-- C10: 32-bit hint bound.  `read_version_hint` parses the hint text as a
signed 32-bit integer: when the text denotes an integer outside
`[-2147483648, 2147483647]`, `load` fails during version resolution — with
the table untouched — even though the text is a syntactically valid
base-10 integer; every in-range value `v`, negative included, is accepted
and resolves the path `metadata/v{v}.metadata.json`. -/
theorem C10_i32_hint_bound (t : Table) (content : List Nat) (text : String) (v : Int)
    (hE : t.op.is_exist "metadata/version-hint.text" = .ok true)
    (hR : t.op.read "metadata/version-hint.text" = .ok content)
    (hU : t.codec.from_utf8 content = .ok text)
    (hD : decimalValue? text = some v) :
    ((v < -2147483648 ∨ 2147483647 < v) →
      Table.load t = (t, .error ("parse version hint failed: " ++ text))) ∧
    (-2147483648 ≤ v → v ≤ 2147483647 →
      t.read_version_hint = .ok v ∧
      t.resolve_path = .ok ("metadata/v" ++ toString v ++ ".metadata.json")) := by
  have h1 : t.is_version_hint_exist = .ok true := by
    simp [Table.is_version_hint_exist, hE]
  constructor
  · intro hout
    have hrange : ¬(-2147483648 ≤ v ∧ v ≤ 2147483647) := by omega
    have hp : parseI32 text = none := by
      simp [parseI32, hD, hrange]
    have h2 : t.read_version_hint = .error ("parse version hint failed: " ++ text) := by
      simp [Table.read_version_hint, hR, hU, hp]
    simp [Table.load, Table.resolve_path, h1, h2]
  · intro hlo hhi
    have hp : parseI32 text = some v := by
      simp [parseI32, hD, hlo, hhi]
    have h2 : t.read_version_hint = .ok v := by
      simp [Table.read_version_hint, hR, hU, hp]
    exact ⟨h2, by simp [Table.resolve_path, h1, h2]⟩

/-- Witness for C10 at the fixture whose hint reads `2147483648`, one past
the `i32` maximum. -/
theorem C10_i32_hint_bound_witness :
    ((2147483648 : Int) < -2147483648 ∨ (2147483647 : Int) < 2147483648 →
      Table.load overflowHintTable =
        (overflowHintTable, .error ("parse version hint failed: " ++ "2147483648"))) ∧
    ((-2147483648 : Int) ≤ 2147483648 → (2147483648 : Int) ≤ 2147483647 →
      overflowHintTable.read_version_hint = .ok 2147483648 ∧
      overflowHintTable.resolve_path =
        .ok ("metadata/v" ++ toString (2147483648 : Int) ++ ".metadata.json")) :=
  C10_i32_hint_bound overflowHintTable [50, 49, 52, 55, 52, 56, 51, 54, 52, 56]
    "2147483648" 2147483648 rfl rfl rfl rfl

theorem data_files_from_snapshot_ok_inv (t : Table) (snap : Snapshot) (files : List DataFile)
    (h : t.data_files_from_snapshot snap = .ok files) :
    ∃ ml_path ml_bytes ml m_path m_bytes header entries,
      t.rel_path snap.manifest_list = .ok ml_path ∧
      t.op.read ml_path = .ok ml_bytes ∧
      t.codec.parse_manifest_list ml_bytes = .ok ml ∧
      t.rel_path ml.manifest_path = .ok m_path ∧
      t.op.read m_path = .ok m_bytes ∧
      t.codec.parse_manifest_file m_bytes = .ok (header, entries) ∧
      files = entries.map (fun v => v.data_file) ∧
      files.length = entries.length := by
  unfold Table.data_files_from_snapshot at h
  cases h1 : t.rel_path snap.manifest_list with
  | error e => rw [h1] at h; simp at h
  | ok mlp =>
    rw [h1] at h
    dsimp only at h
    cases h2 : t.op.read mlp with
    | error e => rw [h2] at h; simp at h
    | ok mlb =>
      rw [h2] at h
      dsimp only at h
      cases h3 : t.codec.parse_manifest_list mlb with
      | error e => rw [h3] at h; simp at h
      | ok ml =>
        rw [h3] at h
        dsimp only at h
        cases h4 : t.rel_path ml.manifest_path with
        | error e => rw [h4] at h; simp at h
        | ok mp =>
          rw [h4] at h
          dsimp only at h
          cases h5 : t.op.read mp with
          | error e => rw [h5] at h; simp at h
          | ok mb =>
            rw [h5] at h
            dsimp only at h
            cases h6 : t.codec.parse_manifest_file mb with
            | error e => rw [h6] at h; simp at h
            | ok pr =>
              rw [h6] at h
              have hfiles : pr.2.map (fun v => v.data_file) = files := by
                simpa using h
              exact ⟨mlp, mlb, ml, mp, mb, pr.1, pr.2, rfl, h2, h3, h4, h5, h6,
                hfiles.symm, by rw [← hfiles]; simp⟩

theorem current_data_files_ok_inv (t : Table) (files : List DataFile)
    (h : t.current_data_files = .ok files) :
    ∃ snap, t.data_files_from_snapshot snap = .ok files := by
  unfold Table.current_data_files at h
  by_cases h0 : t.current_version = 0
  · rw [if_pos h0] at h; simp at h
  · rw [if_neg h0] at h
    cases hg : mapGet t.table_metadata t.current_version with
    | none => rw [hg] at h; simp at h
    | some meta =>
      rw [hg] at h
      dsimp only at h
      cases hc : meta.current_snapshot_id with
      | none => rw [hc] at h; simp at h
      | some sid =>
        rw [hc] at h
        dsimp only at h
        cases hs : meta.snapshots with
        | none => rw [hs] at h; simp at h
        | some snaps =>
          rw [hs] at h
          dsimp only at h
          cases hf : snaps.find? (fun v => decide (v.snapshot_id = sid)) with
          | none => rw [hf] at h; simp at h
          | some snap =>
            rw [hf] at h
            dsimp only at h
            exact ⟨snap, h⟩

/-- C8: Order-preserving projection.  Every successful `current_data_files`
run returns exactly the parsed manifest file entries projected to their
`data_file` field, in the entries' original order — the result is a `map`
over the parsed entry sequence, with no re-sorting and no deduplication —
and its length equals the number of manifest-file entries. -/
theorem C8_order_preserving_projection (t : Table) (files : List DataFile)
    (h : t.current_data_files = .ok files) :
    ∃ snap ml_path ml_bytes ml m_path m_bytes header entries,
      t.data_files_from_snapshot snap = .ok files ∧
      t.rel_path snap.manifest_list = .ok ml_path ∧
      t.op.read ml_path = .ok ml_bytes ∧
      t.codec.parse_manifest_list ml_bytes = .ok ml ∧
      t.rel_path ml.manifest_path = .ok m_path ∧
      t.op.read m_path = .ok m_bytes ∧
      t.codec.parse_manifest_file m_bytes = .ok (header, entries) ∧
      files = entries.map (fun v => v.data_file) ∧
      files.length = entries.length := by
  obtain ⟨snap, hsnap⟩ := current_data_files_ok_inv t files h
  obtain ⟨mlp, mlb, ml, mp, mb, header, entries, h1, h2, h3, h4, h5, h6, h7, h8⟩ :=
    data_files_from_snapshot_ok_inv t snap files hsnap
  exact ⟨snap, mlp, mlb, ml, mp, mb, header, entries, hsnap, h1, h2, h3, h4, h5, h6, h7, h8⟩

/-- Witness for C8 at the loaded fixture: three data files in manifest
order. -/
theorem C8_order_preserving_projection_witness :
    ∃ snap ml_path ml_bytes ml m_path m_bytes header entries,
      loadedSimpleTable.data_files_from_snapshot snap = .ok simpleDataFiles ∧
      loadedSimpleTable.rel_path snap.manifest_list = .ok ml_path ∧
      loadedSimpleTable.op.read ml_path = .ok ml_bytes ∧
      loadedSimpleTable.codec.parse_manifest_list ml_bytes = .ok ml ∧
      loadedSimpleTable.rel_path ml.manifest_path = .ok m_path ∧
      loadedSimpleTable.op.read m_path = .ok m_bytes ∧
      loadedSimpleTable.codec.parse_manifest_file m_bytes = .ok (header, entries) ∧
      simpleDataFiles = entries.map (fun v => v.data_file) ∧
      simpleDataFiles.length = entries.length :=
  C8_order_preserving_projection loadedSimpleTable simpleDataFiles rfl
